import Mathlib

/-!
Shallow embedding of the core client layer of the gemini-research-tools
repository (src/core/client.py and src/core/models.py), together with
theorems settling the specification claims about it.

Modelling conventions:
* Python `Optional[T]` attributes, and attributes guarded by `hasattr`,
  become `Option T`; an absent attribute and a `None` value are both `none`.
* Python string truthiness (`if s:`) becomes an explicit emptiness test.
* The remote vendor SDK is an external collaborator: each operation that
  performs one remote call takes the outcome of that call as an argument
  (`Except String response` when the call sits in a `try`, the raw
  response object otherwise).
* `await`/executor plumbing is erased; the data flow is kept exactly.
-/

namespace GeminiResearch

/-- Python truthiness of an optional string: `str(e) if e else None`. -/
def pyStrOpt : Option String → Option String
  | none => none
  | some s => if s = "" then none else some s

/-! ## Data model (src/core/models.py) -/

inductive ResearchStatusEnum
  | in_progress
  | completed
  | failed
  | cancelled
deriving DecidableEq, Repr

structure ResearchStatus where
  interaction_id : String
  status : ResearchStatusEnum
  error : Option String := none
deriving DecidableEq, Repr

structure ResearchResult where
  interaction_id : String
  status : ResearchStatusEnum
  content : Option String := none
  citations : Option (List String) := none
  error : Option String := none
deriving DecidableEq, Repr

inductive ResearchEventType
  | start
  | thought
  | text_delta
  | complete
  | error
deriving DecidableEq, Repr

structure ResearchEvent where
  event_type : ResearchEventType
  interaction_id : Option String := none
  content : Option String := none
  event_id : Option String := none
deriving DecidableEq, Repr

structure Citation where
  url : String
  title : Option String := none
deriving DecidableEq, Repr

structure GroundingSupport where
  text : String
  start_index : Int
  end_index : Int
  citation_indices : List Int := []
deriving DecidableEq, Repr

structure QuickSearchResult where
  query : String
  content : String
  citations : List Citation := []
  grounding_supports : List GroundingSupport := []
  search_queries : List String := []
  model : String
  error : Option String := none
deriving DecidableEq, Repr

structure UrlMetadata where
  url : String
  status : String
  title : Option String := none
deriving DecidableEq, Repr

structure UrlAnalysisResult where
  urls : List String
  query : String
  content : String
  url_metadata : List UrlMetadata := []
  model : String
  error : Option String := none
deriving DecidableEq, Repr

/-! ## Vendor-side objects observed by DeepResearchClient -/

/-- A web source inside the grounding metadata of an interaction output. -/
structure Web where
  uri : Option String := none
deriving DecidableEq, Repr

structure GroundingChunk where
  web : Option Web := none
deriving DecidableEq, Repr

structure GroundingMetadata where
  grounding_chunks : List GroundingChunk := []
deriving DecidableEq, Repr

/-- One element of `interaction.outputs`. -/
structure Output where
  text : Option String := none
  grounding_metadata : Option GroundingMetadata := none
deriving DecidableEq, Repr

/-- The vendor interaction object returned by `interactions.get`. -/
structure Interaction where
  id : String
  status : String
  outputs : List Output := []
  error : Option String := none
deriving DecidableEq, Repr

/-! ## DeepResearchClient (src/core/client.py) -/

/-- The `status_map` dictionary used by both `get_status` and `get_result`:
vendor status strings map onto the four canonical statuses, everything
unrecognized defaults to in_progress. -/
def status_map (s : String) : ResearchStatusEnum :=
  if s = "in_progress" then ResearchStatusEnum.in_progress
  else if s = "completed" then ResearchStatusEnum.completed
  else if s = "failed" then ResearchStatusEnum.failed
  else if s = "cancelled" then ResearchStatusEnum.cancelled
  else ResearchStatusEnum.in_progress

/-- `DeepResearchClient.get_status`, applied to the interaction object the
remote call returned. -/
def get_status (interaction_id : String) (interaction : Interaction) : ResearchStatus :=
  { interaction_id := interaction_id
    status := status_map interaction.status
    error := pyStrOpt interaction.error }

/-- Python truthiness of `output.text` (`hasattr(output, "text") and output.text`). -/
def output_text_nonempty (o : Output) : Bool :=
  match o.text with
  | some s => decide (s ≠ "")
  | none => false

/-- The citation URLs one iteration of the outer loop of
`_extract_citations` appends: the uri of every chunk of the output's
grounding metadata that has a web attribute with a uri attribute. -/
def output_citations (output : Output) : List String :=
  match output.grounding_metadata with
  | none => []
  | some metadata => metadata.grounding_chunks.filterMap (fun chunk =>
      match chunk.web with
      | some w => w.uri
      | none => none)

/-- `DeepResearchClient._extract_citations`: collect `chunk.web.uri` over all
outputs in order, then map an empty collection to None. -/
def _extract_citations (interaction : Interaction) : Option (List String) :=
  let citations := interaction.outputs.foldl
    (fun acc output => acc ++ output_citations output) []
  if citations = [] then none else some citations

/-- `DeepResearchClient.get_result`, applied to the interaction object the
remote call returned. -/
def get_result (interaction_id : String) (interaction : Interaction) : ResearchResult :=
  let status := status_map interaction.status
  if status = ResearchStatusEnum.completed ∧ interaction.outputs ≠ [] then
    { interaction_id := interaction_id
      status := status
      content := (interaction.outputs.reverse.find? output_text_nonempty).bind Output.text
      citations := _extract_citations interaction
      error := pyStrOpt interaction.error }
  else
    { interaction_id := interaction_id
      status := status
      content := none
      citations := none
      error := pyStrOpt interaction.error }

/-- `DeepResearchClient.ask_followup`, applied to the interaction object the
`interactions.create` call returned: scan the outputs newest-first and
return the first non-empty text, else the empty string. -/
def ask_followup (interaction : Interaction) : String :=
  if interaction.outputs ≠ [] then
    match interaction.outputs.reverse.find? output_text_nonempty with
    | some output => output.text.getD ""
    | none => ""
  else ""

/-! ## poll_until_complete (src/core/client.py lines 209-250)

The loop is modelled against an abstract remote trace: `interactions i` is
the interaction object the i-th `get_status` poll fetches, `finalInteraction`
the one the terminal `get_result` call fetches, `elapsed i` the value of
`time.time() - start_time` measured during iteration i, and `fuel` bounds
the number of iterations (`none` = the loop is still running). -/

inductive PollError
  | timeoutError (msg : String)
deriving DecidableEq, Repr

/-- The message of the TimeoutError raised by `poll_until_complete`. -/
def timeout_message (timeout : Nat) (interaction_id : String) : String :=
  "Research did not complete within " ++ toString timeout ++
    " seconds. Interaction ID: " ++ interaction_id

/-- One run of the `while True` loop of `poll_until_complete`, starting at
iteration index i with the given fuel. -/
def poll_until_complete (interaction_id : String) (interactions : Nat → Interaction)
    (finalInteraction : Interaction) (elapsed : Nat → Nat) (timeout : Nat) :
    Nat → Nat → Option (Except PollError ResearchResult)
  | _, 0 => none
  | i, fuel + 1 =>
    let status := get_status interaction_id (interactions i)
    if status.status = ResearchStatusEnum.completed then
      some (Except.ok (get_result interaction_id finalInteraction))
    else if status.status = ResearchStatusEnum.failed ∨
        status.status = ResearchStatusEnum.cancelled then
      some (Except.ok
        { interaction_id := interaction_id
          status := status.status
          error := status.error })
    else if timeout ≤ elapsed i then
      some (Except.error (PollError.timeoutError (timeout_message timeout interaction_id)))
    else
      poll_until_complete interaction_id interactions finalInteraction elapsed timeout (i + 1) fuel

/-! ## stream_research (src/core/client.py lines 275-392) -/

/-- A content delta carried by a `content.delta` chunk. The `repr_str` field
stands for the Python `str(delta)` fallback text. -/
structure Delta where
  type : String
  text : String := ""
  content_text : Option String := none
  repr_str : String := ""
deriving DecidableEq, Repr

/-- One chunk delivered by the provider stream. -/
structure Chunk where
  event_type : String
  interaction : Option Interaction := none
  event_id : Option String := none
  delta : Option Delta := none
  error : Option String := none
deriving DecidableEq, Repr

/-- The two state variables of the streaming loop. -/
structure StreamState where
  interaction_id : Option String := none
  last_event_id : Option String := none
deriving DecidableEq, Repr

/-- The body of the `for chunk in stream` loop of `stream_research`: for one
chunk, the updated state and the events yielded. `fetch` is the best-effort
`get_result` call made when a completion chunk carries no final content
(`none` = the call raised and was swallowed). -/
def processChunk (fetch : String → Option ResearchResult) (st : StreamState)
    (chunk : Chunk) : StreamState × List ResearchEvent :=
  let startPart :=
    if chunk.event_type = "interaction.start" then
      let iid := chunk.interaction.map Interaction.id
      ({ st with interaction_id := iid },
        [{ event_type := ResearchEventType.start, interaction_id := iid }])
    else (st, ([] : List ResearchEvent))
  let st1 := startPart.1
  let st2 :=
    match pyStrOpt chunk.event_id with
    | some e => { st1 with last_event_id := some e }
    | none => st1
  let deltaEvents : List ResearchEvent :=
    if chunk.event_type = "content.delta" then
      match chunk.delta with
      | none => []
      | some delta =>
        if delta.type = "text" then
          [{ event_type := ResearchEventType.text_delta
             interaction_id := st2.interaction_id
             content := some delta.text
             event_id := st2.last_event_id }]
        else if delta.type = "thought_summary" then
          [{ event_type := ResearchEventType.thought
             interaction_id := st2.interaction_id
             content := some (match delta.content_text with
               | some t => t
               | none => delta.repr_str)
             event_id := st2.last_event_id }]
        else []
    else if chunk.event_type = "interaction.complete" then
      let fromChunk : Option String :=
        match chunk.interaction with
        | some interaction =>
          (interaction.outputs.reverse.find? output_text_nonempty).bind Output.text
        | none => none
      let finalContent : Option String :=
        match fromChunk with
        | some t => some t
        | none =>
          match st2.interaction_id with
          | some iid =>
            match fetch iid with
            | some result => pyStrOpt result.content
            | none => none
          | none => none
      [{ event_type := ResearchEventType.complete
         interaction_id := st2.interaction_id
         content := finalContent
         event_id := st2.last_event_id }]
    else if chunk.event_type = "error" then
      [{ event_type := ResearchEventType.error
         interaction_id := st2.interaction_id
         content := some (chunk.error.getD "Unknown error")
         event_id := st2.last_event_id }]
    else []
  (st2, startPart.2 ++ deltaEvents)

/-- The event sequence produced by the streaming loop from a given state. -/
def stream_go (fetch : String → Option ResearchResult) :
    StreamState → List Chunk → List ResearchEvent
  | _, [] => []
  | st, chunk :: rest =>
    let step := processChunk fetch st chunk
    step.2 ++ stream_go fetch step.1 rest

/-- `DeepResearchClient.stream_research`, applied to the list of chunks the
provider stream delivered. -/
def stream_research (fetch : String → Option ResearchResult)
    (chunks : List Chunk) : List ResearchEvent :=
  stream_go fetch {} chunks

/-! ## Vendor-side objects observed by QuickSearchClient -/

/-- A web source of a grounding chunk in a generate_content response. -/
structure WebQS where
  uri : Option String := none
  title : Option String := none
deriving DecidableEq, Repr

/-- A grounding chunk; `web = none` covers both a missing attribute and a
falsy value (`hasattr(chunk, "web") and chunk.web`). -/
structure GroundingChunkQS where
  web : Option WebQS := none
deriving DecidableEq, Repr

structure Segment where
  text : Option String := none
  start_index : Option Int := none
  end_index : Option Int := none
deriving DecidableEq, Repr

structure SupportQS where
  segment : Option Segment := none
  grounding_chunk_indices : Option (List Int) := none
deriving DecidableEq, Repr

structure GroundingMetadataQS where
  web_search_queries : List String := []
  grounding_chunks : List GroundingChunkQS := []
  grounding_supports : List SupportQS := []
deriving DecidableEq, Repr

structure UrlMetaQS where
  retrieved_url : Option String := none
  url_retrieval_status : Option String := none
deriving DecidableEq, Repr

structure UrlContextMetadata where
  url_metadata : List UrlMetaQS := []
deriving DecidableEq, Repr

structure Candidate where
  grounding_metadata : Option GroundingMetadataQS := none
  url_context_metadata : Option UrlContextMetadata := none
deriving DecidableEq, Repr

/-- The response object of `models.generate_content`. -/
structure GenResponse where
  text : Option String := none
  candidates : List Candidate := []
deriving DecidableEq, Repr

/-! ## QuickSearchClient (src/core/client.py) -/

/-- Python truthiness of `response.text`: `response.text if response.text
else ""`. -/
def response_content (response : GenResponse) : String :=
  match response.text with
  | some t => if t = "" then "" else t
  | none => ""

/-- The citation extraction loop shared verbatim by `quick_search` and
`search_and_analyze`: one Citation per grounding chunk with a truthy web
source, in chunk order. -/
def extract_qs_citations (metadata : GroundingMetadataQS) : List Citation :=
  metadata.grounding_chunks.filterMap (fun chunk =>
    chunk.web.map (fun w =>
      { url := w.uri.getD "", title := w.title }))

/-- The grounding-support extraction loop shared by `quick_search` and
`search_and_analyze`. -/
def extract_qs_supports (metadata : GroundingMetadataQS) : List GroundingSupport :=
  metadata.grounding_supports.filterMap (fun support =>
    support.segment.map (fun segment =>
      { text := segment.text.getD ""
        start_index := segment.start_index.getD 0
        end_index := segment.end_index.getD 0
        citation_indices := support.grounding_chunk_indices.getD [] }))

/-- `QuickSearchClient.quick_search`; `remote` is the outcome of the
`generate_content` call inside the try block (`Except.error e` = the call
raised an exception whose message is e). The `language` argument only
shapes the prompt sent remotely. -/
def quick_search (query : String) (model : String) (language : String)
    (remote : Except String GenResponse) : QuickSearchResult :=
  match remote with
  | Except.error e =>
    { query := query, content := "", citations := [], grounding_supports := []
      search_queries := [], model := model, error := some e }
  | Except.ok response =>
    let content := response_content response
    match response.candidates with
    | [] =>
      { query := query, content := content, citations := []
        grounding_supports := [], search_queries := [], model := model }
    | candidate :: _ =>
      match candidate.grounding_metadata with
      | none =>
        { query := query, content := content, citations := []
          grounding_supports := [], search_queries := [], model := model }
      | some metadata =>
        { query := query, content := content
          citations := extract_qs_citations metadata
          grounding_supports := extract_qs_supports metadata
          search_queries := metadata.web_search_queries
          model := model }

/-- `QuickSearchClient.analyze_urls`; the 20-URL validation happens before
the remote call, so `remote` is consulted only past it. -/
def analyze_urls (urls : List String) (query : String) (model : String)
    (language : String) (remote : Except String GenResponse) : UrlAnalysisResult :=
  if urls.length > 20 then
    { urls := urls, query := query, content := "", url_metadata := []
      model := model, error := some "Maximum 20 URLs allowed per request" }
  else
    match remote with
    | Except.error e =>
      { urls := urls, query := query, content := "", url_metadata := []
        model := model, error := some e }
    | Except.ok response =>
      let content := response_content response
      let url_metadata :=
        match response.candidates with
        | [] => []
        | candidate :: _ =>
          match candidate.url_context_metadata with
          | none => []
          | some metadata =>
            metadata.url_metadata.map (fun um =>
              { url := um.retrieved_url.getD ""
                status := um.url_retrieval_status.getD "unknown"
                title := none })
      { urls := urls, query := query, content := content
        url_metadata := url_metadata, model := model }

/-- `QuickSearchClient.search_and_analyze`; the extraction of content,
citations, supports and search queries is identical to `quick_search`, the
optional urls only extend the prompt sent remotely. -/
def search_and_analyze (query : String) (urls : Option (List String))
    (model : String) (language : String)
    (remote : Except String GenResponse) : QuickSearchResult :=
  match remote with
  | Except.error e =>
    { query := query, content := "", citations := [], grounding_supports := []
      search_queries := [], model := model, error := some e }
  | Except.ok response =>
    let content := response_content response
    match response.candidates with
    | [] =>
      { query := query, content := content, citations := []
        grounding_supports := [], search_queries := [], model := model }
    | candidate :: _ =>
      match candidate.grounding_metadata with
      | none =>
        { query := query, content := content, citations := []
          grounding_supports := [], search_queries := [], model := model }
      | some metadata =>
        { query := query, content := content
          citations := extract_qs_citations metadata
          grounding_supports := extract_qs_supports metadata
          search_queries := metadata.web_search_queries
          model := model }

/-! ## Observation-level vocabulary used by the theorems -/

/-- A canonical status on which the polling loop stops polling. -/
def terminalStatus (s : ResearchStatusEnum) : Bool :=
  s = ResearchStatusEnum.completed ∨ s = ResearchStatusEnum.failed ∨
    s = ResearchStatusEnum.cancelled

/-- The canonical status observed by the i-th poll of `poll_until_complete`. -/
def polledStatus (interaction_id : String) (interactions : Nat → Interaction)
    (i : Nat) : ResearchStatus :=
  get_status interaction_id (interactions i)

/-- Iteration i is the one where the polling loop exits: either the observed
status is terminal, or the timeout check fires. -/
def pollExit (interaction_id : String) (interactions : Nat → Interaction)
    (elapsed : Nat → Nat) (timeout : Nat) (i : Nat) : Bool :=
  terminalStatus (polledStatus interaction_id interactions i).status ∨
    timeout ≤ elapsed i

/-- The value `poll_until_complete` produces when its loop exits at
iteration i. -/
def pollExitValue (interaction_id : String) (interactions : Nat → Interaction)
    (finalInteraction : Interaction) (timeout : Nat) (i : Nat) :
    Except PollError ResearchResult :=
  let status := polledStatus interaction_id interactions i
  if status.status = ResearchStatusEnum.completed then
    Except.ok (get_result interaction_id finalInteraction)
  else if status.status = ResearchStatusEnum.failed ∨
      status.status = ResearchStatusEnum.cancelled then
    Except.ok
      { interaction_id := interaction_id
        status := status.status
        error := status.error }
  else
    Except.error (PollError.timeoutError (timeout_message timeout interaction_id))

/-- The event kind the streaming loop yields for one chunk, if any; the
loop yields at most one event per chunk because the branches discriminate
on the same event_type string. -/
def chunkKind (chunk : Chunk) : Option ResearchEventType :=
  if chunk.event_type = "interaction.start" then some ResearchEventType.start
  else if chunk.event_type = "content.delta" then
    match chunk.delta with
    | none => none
    | some delta =>
      if delta.type = "text" then some ResearchEventType.text_delta
      else if delta.type = "thought_summary" then some ResearchEventType.thought
      else none
  else if chunk.event_type = "interaction.complete" then some ResearchEventType.complete
  else if chunk.event_type = "error" then some ResearchEventType.error
  else none

/-- A chunk on which the claimed event contract expects the stream to stop. -/
def terminalChunk (chunk : Chunk) : Bool :=
  chunk.event_type = "interaction.complete" ∨ chunk.event_type = "error"

/-- A complete or error event. -/
def terminalEvent (e : ResearchEvent) : Bool :=
  e.event_type = ResearchEventType.complete ∨ e.event_type = ResearchEventType.error

/-- The event-sequence contract claimed for `stream_research`: a complete or
error event is always the last event of the sequence. -/
def stopsAtFirstTerminal (events : List ResearchEvent) : Prop :=
  ∀ i e, events[i]? = some e → terminalEvent e → events.length = i + 1

/-! ## Concrete fixtures used by witnesses -/

/-- A grounding chunk whose web source has uri a. -/
def chunkA : GroundingChunkQS := { web := some { uri := some "a" } }

/-- A grounding chunk whose web source has uri b. -/
def chunkB : GroundingChunkQS := { web := some { uri := some "b" } }

/-- Grounding metadata holding the chunks a then b. -/
def metadataAB : GroundingMetadataQS := { grounding_chunks := [chunkA, chunkB] }

/-- A candidate carrying metadataAB. -/
def candidateAB : Candidate := { grounding_metadata := some metadataAB }

/-- A response whose sole candidate carries metadataAB. -/
def responseAB : GenResponse := { candidates := [candidateAB] }

/-! ## Helper lemmas -/

/-- Scanning a list whose decomposition pre ++ a :: l2 starts with elements
all failing the predicate finds a when a satisfies it. -/
theorem find?_append_all_neg {α : Type} (p : α → Bool) (l l2 : List α) (a : α)
    (hl : ∀ x ∈ l, p x = false) (ha : p a = true) :
    (l ++ a :: l2).find? p = some a := by
  induction l with
  | nil => simp [List.find?_cons_of_pos, ha]
  | cons x xs ih =>
    have hx : p x = false := hl x (List.mem_cons_self x xs)
    rw [List.cons_append, List.find?_cons_of_neg _ (by simp [hx])]
    exact ih (fun y hy => hl y (List.mem_cons_of_mem x hy))

/-- Newest-first scanning: when the outputs decompose as pre ++ output ::
post with output non-empty and everything after it empty, the reversed scan
finds output. -/
theorem find?_reverse_last (p : Output → Bool) (pre : List Output) (output : Output)
    (post : List Output) (hp : p output = true) (hpost : ∀ o ∈ post, p o = false) :
    ((pre ++ output :: post).reverse.find? p) = some output := by
  rw [List.reverse_append, List.reverse_cons]
  rw [List.append_assoc]
  exact find?_append_all_neg p post.reverse pre.reverse output
    (fun x hx => hpost x (List.mem_reverse.mp hx)) hp

/-! ## Claim theorems -/

/-- C3: for every list of more than 20 URLs, `analyze_urls` returns (does
not raise) a UrlAnalysisResult naming the 20-URL limit in its error, with
empty content and empty url_metadata, and the outcome of the remote call is
never consulted. -/
theorem analyze_urls_rejects_over_20_urls (urls : List String)
    (query model language : String) (remote : Except String GenResponse)
    (h : urls.length > 20) :
    analyze_urls urls query model language remote =
      { urls := urls, query := query, content := "", url_metadata := []
        model := model, error := some "Maximum 20 URLs allowed per request" } ∧
    ∀ remote2, analyze_urls urls query model language remote =
      analyze_urls urls query model language remote2 := by
  constructor
  · unfold analyze_urls
    rw [if_pos h]
  · intro remote2
    unfold analyze_urls
    rw [if_pos h, if_pos h]

/-- Witness for C3 at 21 URLs. -/
theorem analyze_urls_rejects_over_20_urls_witness :
    (List.replicate 21 "https://example.com").length > 20 ∧
    analyze_urls (List.replicate 21 "https://example.com") "q" "m" "ja"
        (Except.ok {}) =
      { urls := List.replicate 21 "https://example.com", query := "q"
        content := "", url_metadata := [], model := "m"
        error := some "Maximum 20 URLs allowed per request" } :=
  ⟨by decide,
    (analyze_urls_rejects_over_20_urls (List.replicate 21 "https://example.com")
      "q" "m" "ja" (Except.ok {}) (by decide)).1⟩

/-- C5: whenever the remote call inside `quick_search` raises, the function
returns a QuickSearchResult with empty content, empty citations, and the
underlying exception message as the error, instead of raising. -/
theorem quick_search_returns_error_result (query model language e : String) :
    quick_search query model language (Except.error e) =
      { query := query, content := "", citations := [], grounding_supports := []
        search_queries := [], model := model, error := some e } := rfl

/-- C7: `get_status` maps the vendor status through the `status_map`
dictionary, which is the identity on the four canonical names and sends
every other string to in_progress. -/
theorem get_status_maps_vendor_status :
    (∀ interaction_id interaction,
      (get_status interaction_id interaction).status = status_map interaction.status) ∧
    status_map "in_progress" = ResearchStatusEnum.in_progress ∧
    status_map "completed" = ResearchStatusEnum.completed ∧
    status_map "failed" = ResearchStatusEnum.failed ∧
    status_map "cancelled" = ResearchStatusEnum.cancelled ∧
    ∀ s, s ≠ "in_progress" → s ≠ "completed" → s ≠ "failed" → s ≠ "cancelled" →
      status_map s = ResearchStatusEnum.in_progress := by
  refine ⟨fun interaction_id interaction => rfl, rfl, rfl, rfl, rfl, ?_⟩
  intro s h1 h2 h3 h4
  unfold status_map
  rw [if_neg h1, if_neg h2, if_neg h3, if_neg h4]

/-- Witness for C7 at an unrecognized vendor status string. -/
theorem get_status_maps_vendor_status_witness :
    status_map "queued" = ResearchStatusEnum.in_progress :=
  get_status_maps_vendor_status.2.2.2.2.2 "queued"
    (by decide) (by decide) (by decide) (by decide)

/-- C9: on every outcome, the results of `quick_search`, `analyze_urls` and
`search_and_analyze` echo the call's query, model, and (for analyze_urls)
urls arguments unchanged. -/
theorem results_echo_inputs (query model language : String) (urls : List String)
    (urlsOpt : Option (List String)) (remote : Except String GenResponse) :
    ((quick_search query model language remote).query = query ∧
      (quick_search query model language remote).model = model) ∧
    ((analyze_urls urls query model language remote).urls = urls ∧
      (analyze_urls urls query model language remote).query = query ∧
      (analyze_urls urls query model language remote).model = model) ∧
    ((search_and_analyze query urlsOpt model language remote).query = query ∧
      (search_and_analyze query urlsOpt model language remote).model = model) := by
  refine ⟨?_, ?_, ?_⟩
  · cases remote with
    | error e => exact ⟨rfl, rfl⟩
    | ok response =>
      rcases response with ⟨t, candidates⟩
      cases candidates with
      | nil => exact ⟨rfl, rfl⟩
      | cons candidate rest =>
        rcases candidate with ⟨gm, um⟩
        cases gm with
        | none => exact ⟨rfl, rfl⟩
        | some metadata => exact ⟨rfl, rfl⟩
  · by_cases h : urls.length > 20
    · unfold analyze_urls
      rw [if_pos h]
      exact ⟨rfl, rfl, rfl⟩
    · unfold analyze_urls
      rw [if_neg h]
      cases remote with
      | error e => exact ⟨rfl, rfl, rfl⟩
      | ok response =>
        rcases response with ⟨t, candidates⟩
        cases candidates with
        | nil => exact ⟨rfl, rfl, rfl⟩
        | cons candidate rest =>
          rcases candidate with ⟨gm, um⟩
          cases um with
          | none => exact ⟨rfl, rfl, rfl⟩
          | some metadata => exact ⟨rfl, rfl, rfl⟩
  · cases remote with
    | error e => exact ⟨rfl, rfl⟩
    | ok response =>
      rcases response with ⟨t, candidates⟩
      cases candidates with
      | nil => exact ⟨rfl, rfl⟩
      | cons candidate rest =>
        rcases candidate with ⟨gm, um⟩
        cases gm with
        | none => exact ⟨rfl, rfl⟩
        | some metadata => exact ⟨rfl, rfl⟩

/-- The citation fold leaves the accumulator unchanged when every output
contributes nothing. -/
theorem extract_citations_fold_nil (outputs : List Output)
    (h : ∀ o ∈ outputs, output_citations o = []) :
    ∀ acc, outputs.foldl
      (fun acc output => acc ++ output_citations output) acc = acc := by
  induction outputs with
  | nil => intro acc; rfl
  | cons x xs ih =>
    intro acc
    rw [List.foldl_cons, h x (List.mem_cons_self x xs), List.append_nil]
    exact ih (fun o ho => h o (List.mem_cons_of_mem x ho)) acc

/-- C10: for a completed interaction whose outputs hold no grounding chunk
carrying a web uri, the extracted citation collection is empty and is
reported as None (absent), never as an empty list. -/
theorem get_result_citations_none_when_no_web (interaction_id : String)
    (interaction : Interaction)
    (hc : status_map interaction.status = ResearchStatusEnum.completed)
    (hweb : ∀ output ∈ interaction.outputs, ∀ metadata,
      output.grounding_metadata = some metadata →
      ∀ chunk ∈ metadata.grounding_chunks, ∀ w, chunk.web = some w → w.uri = none) :
    _extract_citations interaction = none ∧
    (get_result interaction_id interaction).citations = none := by
  have hout : ∀ o ∈ interaction.outputs, output_citations o = [] := by
    intro o ho
    unfold output_citations
    cases hgm : o.grounding_metadata with
    | none => rfl
    | some metadata =>
      rw [List.filterMap_eq_nil_iff]
      intro chunk hchunk
      cases hw : chunk.web with
      | none => rfl
      | some w => exact hweb o ho metadata hgm chunk hchunk w hw
  have hext : _extract_citations interaction = none := by
    unfold _extract_citations
    rw [extract_citations_fold_nil interaction.outputs hout []]
    rfl
  refine ⟨hext, ?_⟩
  simp only [get_result]
  split
  · exact hext
  · rfl

/-- Witness for C10: a completed interaction with one grounding chunk that
has a web object without uri yields citations = none. -/
theorem get_result_citations_none_when_no_web_witness :
    (get_result "h1"
      { id := "h1"
        status := "completed"
        outputs := [{ text := some "body"
                      grounding_metadata :=
                        some { grounding_chunks := [{ web := none }] } }] }).citations
      = none :=
  (get_result_citations_none_when_no_web "h1"
    { id := "h1"
      status := "completed"
      outputs := [{ text := some "body"
                    grounding_metadata :=
                      some { grounding_chunks := [{ web := none }] } }] }
    rfl
    (by
      intro o ho metadata hmd chunk hchunk w hw
      simp only [List.mem_singleton] at ho
      subst ho
      cases hmd
      simp only [List.mem_singleton] at hchunk
      subst hchunk
      exact Option.noConfusion hw)).2

/-- C4: when the fetched interaction is completed, `get_result` takes as
content the first non-empty text of the reversed outputs, equivalently the
text of the last non-empty textual output; when it is not completed, both
content and citations are absent. -/
theorem get_result_content_contract (interaction_id : String) (interaction : Interaction) :
    (status_map interaction.status = ResearchStatusEnum.completed →
      (get_result interaction_id interaction).content =
        (interaction.outputs.reverse.find? output_text_nonempty).bind Output.text) ∧
    (∀ pre output post,
      status_map interaction.status = ResearchStatusEnum.completed →
      interaction.outputs = pre ++ output :: post →
      output_text_nonempty output = true →
      (∀ o ∈ post, output_text_nonempty o = false) →
      (get_result interaction_id interaction).content = output.text) ∧
    (status_map interaction.status ≠ ResearchStatusEnum.completed →
      (get_result interaction_id interaction).content = none ∧
      (get_result interaction_id interaction).citations = none) := by
  have hmain : status_map interaction.status = ResearchStatusEnum.completed →
      (get_result interaction_id interaction).content =
        (interaction.outputs.reverse.find? output_text_nonempty).bind Output.text := by
    intro hc
    by_cases ho : interaction.outputs = []
    · simp only [get_result]
      rw [if_neg (by simp [ho]), ho]
      rfl
    · simp only [get_result]
      rw [if_pos ⟨hc, ho⟩]
  refine ⟨hmain, ?_, ?_⟩
  · intro pre output post hc hdecomp hp hpost
    rw [hmain hc, hdecomp, find?_reverse_last output_text_nonempty pre output post hp hpost]
    rfl
  · intro hc
    simp only [get_result]
    rw [if_neg (by intro hcontra; exact hc hcontra.1)]
    exact ⟨rfl, rfl⟩

/-- Witness for C4 mirroring the spec's newest-first example. -/
theorem get_result_content_contract_witness :
    (get_result "h2"
      { id := "h2"
        status := "completed"
        outputs := [{ text := some "ignored-older" }, { text := some "final" },
                    { text := none }] }).content = some "final" :=
  (get_result_content_contract "h2"
    { id := "h2"
      status := "completed"
      outputs := [{ text := some "ignored-older" }, { text := some "final" },
                  { text := none }] }).2.1
    [{ text := some "ignored-older" }] { text := some "final" } [{ text := none }]
    rfl rfl (by decide) (by decide)

/-- The chunk-wise citation extraction is the order-preserving map of the
web sources of the grounding chunks, with no de-duplication. -/
theorem extract_qs_citations_eq_map (metadata : GroundingMetadataQS) :
    extract_qs_citations metadata =
      (metadata.grounding_chunks.filterMap GroundingChunkQS.web).map
        (fun w => ({ url := w.uri.getD "", title := w.title } : Citation)) := by
  unfold extract_qs_citations
  rw [List.map_filterMap]

/-- C6: both `quick_search` and `search_and_analyze` build the citations
list in the order of the grounding chunks of the response: the i-th
citation comes from the i-th chunk with a web source, nothing is
de-duplicated or re-ranked. -/
theorem citations_preserve_grounding_chunk_order (query model language : String)
    (urlsOpt : Option (List String)) (response : GenResponse)
    (candidate : Candidate) (rest : List Candidate) (metadata : GroundingMetadataQS)
    (hcand : response.candidates = candidate :: rest)
    (hmeta : candidate.grounding_metadata = some metadata) :
    ((quick_search query model language (Except.ok response)).citations =
        (metadata.grounding_chunks.filterMap GroundingChunkQS.web).map
          (fun w => ({ url := w.uri.getD "", title := w.title } : Citation)) ∧
      (search_and_analyze query urlsOpt model language (Except.ok response)).citations =
        (metadata.grounding_chunks.filterMap GroundingChunkQS.web).map
          (fun w => ({ url := w.uri.getD "", title := w.title } : Citation))) ∧
    ∀ i : Nat, (quick_search query model language (Except.ok response)).citations[i]? =
      ((metadata.grounding_chunks.filterMap GroundingChunkQS.web)[i]?).map
        (fun (w : WebQS) => ({ url := w.uri.getD "", title := w.title } : Citation)) := by
  have hq : (quick_search query model language (Except.ok response)).citations =
      extract_qs_citations metadata := by
    simp only [quick_search, hcand, hmeta]
  have hs : (search_and_analyze query urlsOpt model language (Except.ok response)).citations =
      extract_qs_citations metadata := by
    simp only [search_and_analyze, hcand, hmeta]
  refine ⟨⟨hq.trans (extract_qs_citations_eq_map metadata),
    hs.trans (extract_qs_citations_eq_map metadata)⟩, ?_⟩
  intro i
  rw [hq.trans (extract_qs_citations_eq_map metadata), List.getElem?_map]

/-- Witness for C6 on grounding chunks with uris a then b. -/
theorem citations_preserve_grounding_chunk_order_witness :
    (quick_search "q" "m" "ja" (Except.ok responseAB)).citations
      = [{ url := "a" }, { url := "b" }] :=
  ((citations_preserve_grounding_chunk_order "q" "m" "ja" none
    responseAB candidateAB [] metadataAB rfl rfl).1.1).trans (by decide)

/-- C8 counterexample: with outputs [text A, text B] the first non-empty
textual output is A, but `ask_followup` returns B, because the code scans
the outputs reversed. -/
theorem ask_followup_not_first_nonempty :
    ask_followup
      { id := "h3"
        status := "completed"
        outputs := [{ text := some "A" }, { text := some "B" }] } = "B" ∧
    (([{ text := some "A" }, { text := some "B" }] : List Output).find?
        output_text_nonempty).bind Output.text = some "A" ∧
    ("B" : String) ≠ "A" := by
  refine ⟨by decide, by decide, by decide⟩

/-- C8 amended: `ask_followup` returns the last non-empty textual output of
the response's outputs (the first non-empty one of the reversed scan), and
the empty string when no non-empty textual output exists. -/
theorem ask_followup_last_nonempty (interaction : Interaction) :
    ((∀ o ∈ interaction.outputs, output_text_nonempty o = false) →
      ask_followup interaction = "") ∧
    (∀ pre output post,
      interaction.outputs = pre ++ output :: post →
      output_text_nonempty output = true →
      (∀ o ∈ post, output_text_nonempty o = false) →
      ask_followup interaction = output.text.getD "") := by
  constructor
  · intro hall
    unfold ask_followup
    by_cases ho : interaction.outputs = []
    · rw [if_neg (by simp [ho])]
    · rw [if_pos ho]
      rw [List.find?_eq_none.mpr
        (fun x hx => by simp [hall x (List.mem_reverse.mp hx)])]
  · intro pre output post hdecomp hp hpost
    unfold ask_followup
    rw [if_pos (by rw [hdecomp]; simp)]
    rw [hdecomp, find?_reverse_last output_text_nonempty pre output post hp hpost]

/-- Witness for C8 amended on outputs [text A, text B]. -/
theorem ask_followup_last_nonempty_witness :
    ask_followup
      { id := "h3"
        status := "completed"
        outputs := [{ text := some "A" }, { text := some "B" }] } =
      (some "B" : Option String).getD "" :=
  (ask_followup_last_nonempty
    { id := "h3"
      status := "completed"
      outputs := [{ text := some "A" }, { text := some "B" }] }).2
    [{ text := some "A" }] { text := some "B" } [] rfl (by decide) (by decide)

/-- Unfolding of the loop-exit test. -/
theorem pollExit_eq_true_iff (interaction_id : String) (interactions : Nat → Interaction)
    (elapsed : Nat → Nat) (timeout : Nat) (i : Nat) :
    pollExit interaction_id interactions elapsed timeout i = true ↔
      terminalStatus (polledStatus interaction_id interactions i).status = true ∨
        timeout ≤ elapsed i := by
  simp [pollExit]

/-- Unfolding of the negated loop-exit test. -/
theorem pollExit_eq_false_iff (interaction_id : String) (interactions : Nat → Interaction)
    (elapsed : Nat → Nat) (timeout : Nat) (i : Nat) :
    pollExit interaction_id interactions elapsed timeout i = false ↔
      terminalStatus (polledStatus interaction_id interactions i).status = false ∧
        elapsed i < timeout := by
  simp [pollExit, not_or]

/-- Unfolding of the negated terminal-status test. -/
theorem terminalStatus_eq_false_iff (s : ResearchStatusEnum) :
    terminalStatus s = false ↔
      s ≠ ResearchStatusEnum.completed ∧ s ≠ ResearchStatusEnum.failed ∧
        s ≠ ResearchStatusEnum.cancelled := by
  simp [terminalStatus, not_or]

/-- A terminated polling run exits at the first iteration whose exit test
fires, and returns the value dictated by that iteration. -/
theorem poll_run_characterize (interaction_id : String)
    (interactions : Nat → Interaction) (finalInteraction : Interaction)
    (elapsed : Nat → Nat) (timeout : Nat) :
    ∀ fuel i r,
      poll_until_complete interaction_id interactions finalInteraction elapsed timeout i fuel
        = some r →
      ∃ n, i ≤ n ∧
        (∀ j, i ≤ j → j < n →
          pollExit interaction_id interactions elapsed timeout j = false) ∧
        pollExit interaction_id interactions elapsed timeout n = true ∧
        r = pollExitValue interaction_id interactions finalInteraction timeout n := by
  intro fuel
  induction fuel with
  | zero =>
    intro i r h
    exact absurd h (by simp [poll_until_complete])
  | succ fuel ih =>
    intro i r h
    simp only [poll_until_complete] at h
    by_cases h1 : (get_status interaction_id (interactions i)).status =
        ResearchStatusEnum.completed
    · rw [if_pos h1] at h
      cases h
      refine ⟨i, Nat.le_refl i, fun j hj1 hj2 => absurd (Nat.lt_of_le_of_lt hj1 hj2)
        (Nat.lt_irrefl i), ?_, ?_⟩
      · rw [pollExit_eq_true_iff]
        exact Or.inl (by simp [terminalStatus, polledStatus, h1])
      · simp only [pollExitValue, polledStatus]
        rw [if_pos h1]
    · rw [if_neg h1] at h
      by_cases h2 : (get_status interaction_id (interactions i)).status =
            ResearchStatusEnum.failed ∨
          (get_status interaction_id (interactions i)).status =
            ResearchStatusEnum.cancelled
      · rw [if_pos h2] at h
        cases h
        refine ⟨i, Nat.le_refl i, fun j hj1 hj2 => absurd (Nat.lt_of_le_of_lt hj1 hj2)
          (Nat.lt_irrefl i), ?_, ?_⟩
        · rw [pollExit_eq_true_iff]
          refine Or.inl ?_
          rcases h2 with h2 | h2 <;> simp [terminalStatus, polledStatus, h2]
        · simp only [pollExitValue, polledStatus]
          rw [if_neg h1, if_pos h2]
      · rw [if_neg h2] at h
        by_cases h3 : timeout ≤ elapsed i
        · rw [if_pos h3] at h
          cases h
          refine ⟨i, Nat.le_refl i, fun j hj1 hj2 => absurd (Nat.lt_of_le_of_lt hj1 hj2)
            (Nat.lt_irrefl i), ?_, ?_⟩
          · rw [pollExit_eq_true_iff]
            exact Or.inr h3
          · simp only [pollExitValue, polledStatus]
            rw [if_neg h1, if_neg h2]
        · rw [if_neg h3] at h
          obtain ⟨n, hn1, hn2, hn3, hn4⟩ := ih (i + 1) r h
          refine ⟨n, Nat.le_trans (Nat.le_succ i) hn1, ?_, hn3, hn4⟩
          intro j hj1 hj2
          rcases Nat.eq_or_lt_of_le hj1 with heq | hlt
          · subst heq
            rw [pollExit_eq_false_iff]
            refine ⟨?_, Nat.lt_of_not_le h3⟩
            rw [terminalStatus_eq_false_iff]
            exact ⟨h1, (not_or.mp h2).1, (not_or.mp h2).2⟩
          · exact hn2 j hlt hj2

/-- With enough fuel, the polling run starting at or before the first exit
iteration terminates there and returns its dictated value. -/
theorem poll_run_reaches (interaction_id : String)
    (interactions : Nat → Interaction) (finalInteraction : Interaction)
    (elapsed : Nat → Nat) (timeout : Nat) (n : Nat)
    (hmin : ∀ j, j < n → pollExit interaction_id interactions elapsed timeout j = false)
    (hexit : pollExit interaction_id interactions elapsed timeout n = true) :
    ∀ fuel i, i ≤ n → n < i + fuel →
      poll_until_complete interaction_id interactions finalInteraction elapsed timeout i fuel
        = some (pollExitValue interaction_id interactions finalInteraction timeout n) := by
  intro fuel
  induction fuel with
  | zero =>
    intro i h1 h2
    omega
  | succ fuel ih =>
    intro i hi hn
    simp only [poll_until_complete]
    rcases Nat.eq_or_lt_of_le hi with heq | hlt
    · subst heq
      by_cases h1 : (get_status interaction_id (interactions i)).status =
          ResearchStatusEnum.completed
      · rw [if_pos h1]
        simp only [pollExitValue, polledStatus]
        rw [if_pos h1]
      · rw [if_neg h1]
        by_cases h2 : (get_status interaction_id (interactions i)).status =
              ResearchStatusEnum.failed ∨
            (get_status interaction_id (interactions i)).status =
              ResearchStatusEnum.cancelled
        · rw [if_pos h2]
          simp only [pollExitValue, polledStatus]
          rw [if_neg h1, if_pos h2]
        · rw [if_neg h2]
          have h3 : timeout ≤ elapsed i := by
            rcases (pollExit_eq_true_iff interaction_id interactions elapsed
                timeout i).mp hexit with ht | ht
            · exfalso
              rw [polledStatus] at ht
              simp only [terminalStatus, decide_eq_true_eq] at ht
              rcases ht with ht | ht | ht
              exacts [h1 ht, (not_or.mp h2).1 ht, (not_or.mp h2).2 ht]
            · exact ht
          rw [if_pos h3]
          simp only [pollExitValue, polledStatus]
          rw [if_neg h1, if_neg h2]
    · have hx := (pollExit_eq_false_iff interaction_id interactions elapsed
        timeout i).mp (hmin i hlt)
      have hterm := (terminalStatus_eq_false_iff _).mp hx.1
      rw [polledStatus] at hterm
      rw [if_neg hterm.1, if_neg (not_or.mpr ⟨hterm.2.1, hterm.2.2⟩),
        if_neg (Nat.not_le.mpr hx.2)]
      exact ih (i + 1) hlt (by omega)

/-- C1: a terminated `poll_until_complete` run raises TimeoutError exactly
when the elapsed time reaches the timeout before any poll observes a
terminal status (and every raised error is that TimeoutError); when the
first deciding poll observes failed or cancelled it returns, without
raising, a ResearchResult with that status, the remote error message and no
content; when it observes completed it returns the `get_result` value for
the same handle. -/
theorem poll_until_complete_contract (interaction_id : String)
    (interactions : Nat → Interaction) (finalInteraction : Interaction)
    (elapsed : Nat → Nat) (timeout fuel : Nat) (r : Except PollError ResearchResult)
    (hrun : poll_until_complete interaction_id interactions finalInteraction elapsed
      timeout 0 fuel = some r) :
    ((∃ msg, r = Except.error (PollError.timeoutError msg)) ↔
      ∃ i, timeout ≤ elapsed i ∧ ∀ j, j ≤ i →
        terminalStatus (polledStatus interaction_id interactions j).status = false) ∧
    (∀ e, r = Except.error e →
      e = PollError.timeoutError (timeout_message timeout interaction_id)) ∧
    (∀ n, (∀ j, j < n → pollExit interaction_id interactions elapsed timeout j = false) →
      ((polledStatus interaction_id interactions n).status = ResearchStatusEnum.failed ∨
        (polledStatus interaction_id interactions n).status = ResearchStatusEnum.cancelled) →
      r = Except.ok
        { interaction_id := interaction_id
          status := (polledStatus interaction_id interactions n).status
          content := none
          citations := none
          error := (polledStatus interaction_id interactions n).error }) ∧
    (∀ n, (∀ j, j < n → pollExit interaction_id interactions elapsed timeout j = false) →
      (polledStatus interaction_id interactions n).status = ResearchStatusEnum.completed →
      r = Except.ok (get_result interaction_id finalInteraction)) := by
  obtain ⟨n, -, hmin, hexit, hval⟩ :=
    poll_run_characterize interaction_id interactions finalInteraction elapsed timeout
      fuel 0 r hrun
  have huniq : ∀ m, (∀ j, j < m → pollExit interaction_id interactions elapsed timeout j
        = false) →
      pollExit interaction_id interactions elapsed timeout m = true → m = n := by
    intro m hm hmex
    rcases Nat.lt_trichotomy m n with h | h | h
    · exact absurd hmex (by rw [hmin m (Nat.zero_le m) h]; simp)
    · exact h
    · exact absurd hexit (by rw [hm n h]; simp)
  refine ⟨⟨?_, ?_⟩, ?_, ?_, ?_⟩
  · rintro ⟨msg, hr⟩
    subst hr
    have hterm : terminalStatus (polledStatus interaction_id interactions n).status
        = false := by
      rw [terminalStatus_eq_false_iff]
      refine ⟨?_, ?_, ?_⟩ <;> intro hs <;>
        simp only [pollExitValue, hs, if_pos, if_neg, reduceIte] at hval <;>
        exact Except.noConfusion hval
    refine ⟨n, ?_, ?_⟩
    · rcases (pollExit_eq_true_iff interaction_id interactions elapsed timeout n).mp
        hexit with ht | ht
      · rw [hterm] at ht; exact absurd ht (by simp)
      · exact ht
    · intro j hj
      rcases Nat.eq_or_lt_of_le hj with heq | hlt
      · subst heq; exact hterm
      · exact ((pollExit_eq_false_iff interaction_id interactions elapsed timeout j).mp
          (hmin j (Nat.zero_le j) hlt)).1
  · rintro ⟨i, hti, hall⟩
    have hni : n ≤ i := by
      by_contra hcon
      have := hmin i (Nat.zero_le i) (Nat.lt_of_not_le hcon)
      rw [pollExit_eq_false_iff] at this
      exact absurd hti (Nat.not_le.mpr this.2)
    have hterm := hall n hni
    rw [terminalStatus_eq_false_iff] at hterm
    refine ⟨timeout_message timeout interaction_id, ?_⟩
    rw [hval]
    simp only [pollExitValue]
    rw [if_neg hterm.1, if_neg (not_or.mpr ⟨hterm.2.1, hterm.2.2⟩)]
  · intro e hr
    subst hr
    by_cases h1 : (polledStatus interaction_id interactions n).status =
        ResearchStatusEnum.completed
    · simp only [pollExitValue] at hval
      rw [if_pos h1] at hval
      exact Except.noConfusion hval
    · by_cases h2 : (polledStatus interaction_id interactions n).status =
            ResearchStatusEnum.failed ∨
          (polledStatus interaction_id interactions n).status =
            ResearchStatusEnum.cancelled
      · simp only [pollExitValue] at hval
        rw [if_neg h1, if_pos h2] at hval
        exact Except.noConfusion hval
      · simp only [pollExitValue] at hval
        rw [if_neg h1, if_neg h2] at hval
        exact (Except.error.inj hval).symm ▸ rfl
  · intro m hm hfc
    have hmn : m = n := by
      refine huniq m hm ?_
      rw [pollExit_eq_true_iff]
      refine Or.inl ?_
      rcases hfc with h | h <;> simp [terminalStatus, h]
    subst hmn
    have h1 : (polledStatus interaction_id interactions m).status ≠
        ResearchStatusEnum.completed := by
      rcases hfc with h | h <;> rw [h] <;> intro hx <;>
        exact ResearchStatusEnum.noConfusion hx
    rw [hval]
    simp only [pollExitValue]
    rw [if_neg h1, if_pos hfc]
  · intro m hm hc
    have hmn : m = n := by
      refine huniq m hm ?_
      rw [pollExit_eq_true_iff]
      exact Or.inl (by simp [terminalStatus, hc])
    subst hmn
    rw [hval]
    simp only [pollExitValue]
    rw [if_pos hc]

/-- Witness for C1: with poll interval ticks elapsed 0,1,2,..., timeout 2
and a remote stuck in in_progress, the run ends in the TimeoutError, and
the contract yields the elapsed-reaches-timeout-first certificate. -/
theorem poll_until_complete_contract_witness :
    ∃ i, 2 ≤ (fun n : Nat => n) i ∧ ∀ j, j ≤ i →
      terminalStatus
        (polledStatus "X" (fun _ => { id := "X", status := "in_progress" }) j).status
        = false :=
  ((poll_until_complete_contract "X" (fun _ => { id := "X", status := "in_progress" })
      { id := "X", status := "completed" } (fun n => n) 2 4
      (Except.error (PollError.timeoutError (timeout_message 2 "X")))
      (by rfl)).1).mp ⟨timeout_message 2 "X", rfl⟩

/-- One chunk yields exactly the events whose kinds `chunkKind` records: at
most one event per chunk, because every branch discriminates on the same
event_type string. -/
theorem processChunk_kinds (fetch : String → Option ResearchResult)
    (st : StreamState) (chunk : Chunk) :
    ((processChunk fetch st chunk).2).map ResearchEvent.event_type =
      (chunkKind chunk).toList := by
  simp only [processChunk, chunkKind]
  by_cases h1 : chunk.event_type = "interaction.start"
  · simp [h1]
  · by_cases h2 : chunk.event_type = "content.delta"
    · cases hd : chunk.delta with
      | none => simp [h1, h2, hd]
      | some delta =>
        by_cases ht : delta.type = "text"
        · simp [h1, h2, hd, ht]
        · by_cases hth : delta.type = "thought_summary"
          · simp [h1, h2, hd, ht, hth]
          · simp [h1, h2, hd, ht, hth]
    · by_cases h3 : chunk.event_type = "interaction.complete"
      · simp [h1, h2, h3]
      · by_cases h4 : chunk.event_type = "error"
        · simp [h1, h2, h3, h4]
        · simp [h1, h2, h3, h4]

/-- The kinds of the whole event sequence are the chunk kinds in order,
independently of the loop state. -/
theorem stream_go_kinds (fetch : String → Option ResearchResult) :
    ∀ (chunks : List Chunk) (st : StreamState),
      (stream_go fetch st chunks).map ResearchEvent.event_type =
        chunks.filterMap chunkKind := by
  intro chunks
  induction chunks with
  | nil => intro st; rfl
  | cons chunk rest ih =>
    intro st
    simp only [stream_go]
    rw [List.map_append, processChunk_kinds, ih, List.filterMap_cons]
    cases chunkKind chunk <;> simp

/-- Only an interaction.start chunk yields a start event. -/
theorem chunkKind_start_inv (c : Chunk)
    (hk : chunkKind c = some ResearchEventType.start) :
    c.event_type = "interaction.start" := by
  by_cases h1 : c.event_type = "interaction.start"
  · exact h1
  · exfalso
    by_cases h2 : c.event_type = "content.delta"
    · cases hd : c.delta with
      | none => simp [chunkKind, h1, h2, hd] at hk
      | some delta =>
        by_cases ht : delta.type = "text"
        · simp [chunkKind, h1, h2, hd, ht] at hk
        · by_cases hth : delta.type = "thought_summary"
          · simp [chunkKind, h1, h2, hd, ht, hth] at hk
          · simp [chunkKind, h1, h2, hd, ht, hth] at hk
    · by_cases h3 : c.event_type = "interaction.complete"
      · simp [chunkKind, h1, h2, h3] at hk
      · by_cases h4 : c.event_type = "error"
        · simp [chunkKind, h1, h2, h3, h4] at hk
        · simp [chunkKind, h1, h2, h3, h4] at hk

/-- A terminal chunk yields a complete or error event kind. -/
theorem chunkKind_of_terminal (c : Chunk) (h : terminalChunk c = true) :
    chunkKind c = some ResearchEventType.complete ∨
      chunkKind c = some ResearchEventType.error := by
  simp only [terminalChunk, decide_eq_true_eq] at h
  rcases h with h | h
  · exact Or.inl (by simp [chunkKind, h])
  · exact Or.inr (by simp [chunkKind, h])

/-- A non-terminal chunk never yields a complete or error event kind. -/
theorem chunkKind_not_terminal (c : Chunk) (hc : terminalChunk c = false) :
    ∀ k, chunkKind c = some k →
      k ≠ ResearchEventType.complete ∧ k ≠ ResearchEventType.error := by
  simp only [terminalChunk, decide_eq_false_iff_not, not_or] at hc
  intro k hk
  by_cases h1 : c.event_type = "interaction.start"
  · simp [chunkKind, h1] at hk
    subst hk
    exact ⟨by simp, by simp⟩
  · by_cases h2 : c.event_type = "content.delta"
    · cases hd : c.delta with
      | none => simp [chunkKind, h1, h2, hd] at hk
      | some delta =>
        by_cases ht : delta.type = "text"
        · simp [chunkKind, h1, h2, hd, ht] at hk
          subst hk
          exact ⟨by simp, by simp⟩
        · by_cases hth : delta.type = "thought_summary"
          · simp [chunkKind, h1, h2, hd, ht, hth] at hk
            subst hk
            exact ⟨by simp, by simp⟩
          · simp [chunkKind, h1, h2, hd, ht, hth] at hk
    · simp [chunkKind, h1, h2, hc.1, hc.2] at hk

/-- No event of a given kind arises when no chunk yields that kind. -/
theorem stream_go_no_kind (fetch : String → Option ResearchResult)
    (chunks : List Chunk) (st : StreamState) (k : ResearchEventType)
    (h : ∀ c ∈ chunks, chunkKind c ≠ some k) :
    ∀ e ∈ stream_go fetch st chunks, e.event_type ≠ k := by
  intro e he hk
  have hmem : k ∈ (stream_go fetch st chunks).map ResearchEvent.event_type :=
    List.mem_map.mpr ⟨e, he, hk⟩
  rw [stream_go_kinds] at hmem
  obtain ⟨c, hc, hck⟩ := List.mem_filterMap.mp hmem
  exact h c hc hck

/-- An event list whose kinds form a singleton is a singleton. -/
theorem map_eventType_singleton {events : List ResearchEvent} {k : ResearchEventType}
    (h : events.map ResearchEvent.event_type = [k]) :
    ∃ e, events = [e] ∧ e.event_type = k := by
  cases events with
  | nil => simp at h
  | cons e rest =>
    cases rest with
    | nil => exact ⟨e, rfl, by simpa using h⟩
    | cons e2 r2 => simp at h

/-- A one-event sequence trivially stops at its terminal event. -/
theorem stopsAtFirstTerminal_singleton (e : ResearchEvent) :
    stopsAtFirstTerminal [e] := by
  intro i e2 he ht
  cases i with
  | zero => rfl
  | succ n => simp at he

/-- Appending a terminal-free prefix preserves the stopping contract. -/
theorem stopsAtFirstTerminal_append (l1 l2 : List ResearchEvent)
    (h1 : ∀ e ∈ l1, terminalEvent e = false)
    (h2 : stopsAtFirstTerminal l2) :
    stopsAtFirstTerminal (l1 ++ l2) := by
  intro i e he ht
  rw [List.getElem?_append] at he
  by_cases hi : i < l1.length
  · rw [if_pos hi] at he
    have hmem : e ∈ l1 := List.getElem?_mem he
    rw [h1 e hmem] at ht
    exact Bool.noConfusion ht
  · rw [if_neg hi] at he
    have hlen := h2 (i - l1.length) e he ht
    rw [List.length_append, hlen]
    omega

/-- When terminal chunks occur only as the last chunk, the event sequence
stops at its first complete or error event, from any loop state. -/
theorem stream_go_stops (fetch : String → Option ResearchResult) :
    ∀ (chunks : List Chunk) (st : StreamState),
      (∀ i c, chunks[i]? = some c → terminalChunk c = true → chunks.length = i + 1) →
      stopsAtFirstTerminal (stream_go fetch st chunks) := by
  intro chunks
  induction chunks with
  | nil =>
    intro st h i e he ht
    simp [stream_go] at he
  | cons c cs ih =>
    intro st hterm
    by_cases hc : terminalChunk c = true
    · have hcs : cs = [] := by
        have h0 := hterm 0 c (by simp) hc
        simp only [List.length_cons] at h0
        exact List.length_eq_zero.mp (by omega)
      subst hcs
      have hgo : stream_go fetch st [c] = (processChunk fetch st c).2 := by
        simp [stream_go]
      rcases chunkKind_of_terminal c hc with hk | hk <;>
      · have hmap := processChunk_kinds fetch st c
        rw [hk] at hmap
        obtain ⟨e0, hev, -⟩ := map_eventType_singleton hmap
        rw [hgo, hev]
        exact stopsAtFirstTerminal_singleton e0
    · have hc' : terminalChunk c = false := Bool.eq_false_iff.mpr hc
      have hterm2 : ∀ i c2, cs[i]? = some c2 → terminalChunk c2 = true →
          cs.length = i + 1 := by
        intro i c2 hi hc2
        have h0 := hterm (i + 1) c2 (by simpa using hi) hc2
        simp only [List.length_cons] at h0
        omega
      have hevs : ∀ e ∈ (processChunk fetch st c).2, terminalEvent e = false := by
        intro e he
        have hmem : e.event_type ∈
            ((processChunk fetch st c).2).map ResearchEvent.event_type :=
          List.mem_map_of_mem ResearchEvent.event_type he
        rw [processChunk_kinds] at hmem
        cases hkc : chunkKind c with
        | none => rw [hkc] at hmem; simp at hmem
        | some k =>
          rw [hkc] at hmem
          simp only [Option.toList_some, List.mem_singleton] at hmem
          have hnk := chunkKind_not_terminal c hc' k hkc
          simp [terminalEvent, hmem, hnk.1, hnk.2]
      have hrest := ih (processChunk fetch st c).1 hterm2
      have hgo : stream_go fetch st (c :: cs) =
          (processChunk fetch st c).2 ++
            stream_go fetch (processChunk fetch st c).1 cs := by
        simp [stream_go]
      rw [hgo]
      exact stopsAtFirstTerminal_append _ _ hevs hrest

/-- C2 counterexample: the streaming loop has no break after a terminal
event, so a provider stream that sends a second chunk after its error chunk
makes `stream_research` yield an event after the first error. -/
theorem stream_research_event_after_error :
    (stream_research (fun _ => none)
        [{ event_type := "error" }, { event_type := "error" }]).map
        ResearchEvent.event_type =
      [ResearchEventType.error, ResearchEventType.error] ∧
    ¬ stopsAtFirstTerminal (stream_research (fun _ => none)
        [{ event_type := "error" }, { event_type := "error" }]) := by
  refine ⟨by rfl, ?_⟩
  intro h
  have h2 := h 0
    { event_type := ResearchEventType.error, content := some "Unknown error" }
    (by rfl) (by rfl)
  exact absurd h2 (by decide)

/-- C2 amended: provided the provider chunk sequence itself sends no chunk
after its first interaction.complete or error chunk and sends
interaction.start at most as its first chunk, the event sequence begins
with at most one start event and yields no event of any kind after the
first complete or error event. -/
theorem stream_research_event_contract (fetch : String → Option ResearchResult)
    (chunks : List Chunk)
    (hterm : ∀ i c, chunks[i]? = some c → terminalChunk c = true →
      chunks.length = i + 1)
    (hstart : ∀ i c, chunks[i]? = some c → c.event_type = "interaction.start" →
      i = 0) :
    (∀ e ∈ (stream_research fetch chunks).drop 1,
      e.event_type ≠ ResearchEventType.start) ∧
    stopsAtFirstTerminal (stream_research fetch chunks) := by
  refine ⟨?_, stream_go_stops fetch chunks {} hterm⟩
  cases chunks with
  | nil =>
    intro e he
    simp [stream_research, stream_go] at he
  | cons c cs =>
    have hcs_nostart : ∀ c2 ∈ cs, c2.event_type ≠ "interaction.start" := by
      intro c2 hc2 hx
      obtain ⟨i, hi⟩ := List.mem_iff_getElem?.mp hc2
      have h0 := hstart (i + 1) c2 (by simpa using hi) hx
      omega
    by_cases hcstart : c.event_type = "interaction.start"
    · have hmap := processChunk_kinds fetch {} c
      rw [show chunkKind c = some ResearchEventType.start from by
        simp [chunkKind, hcstart]] at hmap
      obtain ⟨e0, hev, -⟩ := map_eventType_singleton hmap
      have hgo : stream_research fetch (c :: cs) =
          e0 :: stream_go fetch (processChunk fetch {} c).1 cs := by
        simp [stream_research, stream_go, hev]
      rw [hgo]
      intro e he hx
      have hnost : ∀ c2 ∈ cs, chunkKind c2 ≠ some ResearchEventType.start := by
        intro c2 hc2 hk
        exact hcs_nostart c2 hc2 (chunkKind_start_inv c2 hk)
      exact stream_go_no_kind fetch cs (processChunk fetch {} c).1
        ResearchEventType.start hnost e (by simpa using he) hx
    · have hnost : ∀ c2 ∈ (c :: cs), chunkKind c2 ≠ some ResearchEventType.start := by
        intro c2 hc2 hk
        have hx := chunkKind_start_inv c2 hk
        rcases List.mem_cons.mp hc2 with h | h
        · subst h; exact hcstart hx
        · exact hcs_nostart c2 h hx
      intro e he
      exact stream_go_no_kind fetch (c :: cs) {} ResearchEventType.start hnost e
        (List.mem_of_mem_drop he)

/-- Witness for C2 amended on a well-formed chunk stream
start, text delta, complete. -/
theorem stream_research_event_contract_witness :
    stopsAtFirstTerminal (stream_research (fun _ => none)
      [{ event_type := "interaction.start"
         interaction := some { id := "X", status := "in_progress" } },
       { event_type := "content.delta"
         delta := some { type := "text", text := "foo" } },
       { event_type := "interaction.complete" }]) :=
  (stream_research_event_contract (fun _ => none)
    [{ event_type := "interaction.start"
       interaction := some { id := "X", status := "in_progress" } },
     { event_type := "content.delta"
       delta := some { type := "text", text := "foo" } },
     { event_type := "interaction.complete" }]
    (by
      intro i c hi ht
      match i, hi with
      | 0, hi =>
        cases hi
        exact absurd ht (by decide)
      | 1, hi =>
        cases hi
        exact absurd ht (by decide)
      | 2, hi =>
        rfl
      | n + 3, hi => exact Option.noConfusion hi)
    (by
      intro i c hi hx
      match i, hi with
      | 0, hi => rfl
      | 1, hi =>
        cases hi
        exact absurd hx (by decide)
      | 2, hi =>
        cases hi
        exact absurd hx (by decide)
      | n + 3, hi => exact Option.noConfusion hi)).2

end GeminiResearch










